import Mathlib

/-!
Verification of the synchronized media composition engine of the StoryFlux
repository (src/scripts/video_generator.py, class VideoGenerator).

The Python source is shallowly embedded below.  Narration text is modelled as
a list of characters; float arithmetic of the source is modelled exactly over
the rationals; calls into external libraries (requests, PIL font metrics,
textwrap, moviepy) are modelled as explicit environment records or oracle
function parameters, as noted at each definition.
-/

set_option autoImplicit false

namespace StoryFlux

/-! ### Text primitives

Models of the Python string operations used by `_parse_script_segments` and
`_create_text_image_clip`: `str.split()` word counting, `str.strip()`,
`str.split(sep)`, and the sentence-boundary regex split. -/

/-- Model of Python `len(s.split())`: counts maximal runs of non-whitespace
characters.  The boolean flag records whether we are currently inside a word
(so its first character has already been counted). -/
def countWordsAux : List Char → Bool → Nat
  | [], _ => 0
  | c :: cs, inWord =>
    if c.isWhitespace then countWordsAux cs false
    else (if inWord then 0 else 1) + countWordsAux cs true

/-- `wordCount s` is the number of whitespace-separated words of `s`,
as computed by `len(s.split())` in the source. -/
def wordCount (s : List Char) : Nat := countWordsAux s false

/-- Model of Python `str.strip()`: drop leading and trailing whitespace. -/
def stripChars (l : List Char) : List Char :=
  ((l.dropWhile Char.isWhitespace).reverse.dropWhile Char.isWhitespace).reverse

/-- Model of Python `str.split(sep)` for a single-character separator:
splits at every occurrence of the separator, keeping empty pieces. -/
def splitOnCharAux (p : Char) : List Char → List Char → List (List Char)
  | [], acc => [acc.reverse]
  | c :: cs, acc =>
    if c = p then acc.reverse :: splitOnCharAux p cs []
    else splitOnCharAux p cs (c :: acc)

/-- Model of Python `script.split(chr(10) ++ chr(10))` (split on a blank line):
splits at each non-overlapping occurrence of two consecutive newline
characters, scanning left to right. -/
def splitOnDoubleNewlineAux : List Char → List Char → List (List Char)
  | [], acc => [acc.reverse]
  | [c], acc => [(c :: acc).reverse]
  | c :: c2 :: cs, acc =>
    if c = '\n' ∧ c2 = '\n' then acc.reverse :: splitOnDoubleNewlineAux cs []
    else splitOnDoubleNewlineAux (c2 :: cs) (c :: acc)

/-- Is the character one of the sentence-ending marks of the source regex? -/
def isSentenceEnd (c : Char) : Bool := c = '.' || c = '!' || c = '?'

/-- Model of `re.split` with pattern lookbehind-[.!?] followed by a
whitespace run: the accumulator holds the current piece reversed, and the
flag records that we are inside a separator whitespace run (whose further
whitespace characters are consumed without starting a new piece). -/
def splitSentencesAux : List Char → List Char → Bool → List (List Char)
  | [], acc, _ => [acc.reverse]
  | c :: cs, acc, sep =>
    if c.isWhitespace then
      if sep then splitSentencesAux cs acc true
      else if (acc.head?.elim false isSentenceEnd) then
        acc.reverse :: splitSentencesAux cs [] true
      else splitSentencesAux cs (c :: acc) false
    else splitSentencesAux cs (c :: acc) false

/-- Sentence split of the whole script, as in the source. -/
def splitSentences (l : List Char) : List (List Char) := splitSentencesAux l [] false

/-- Model of Python `chr(32).join(parts)`: join pieces with single spaces. -/
def joinSpace : List (List Char) → List Char
  | [] => []
  | [s] => s
  | s :: t :: rest => s ++ ' ' :: joinSpace (t :: rest)

/-! ### SegmentAllocator: `_parse_script_segments`

Source lines 433-467.  The three splitting strategies are modelled as
separate definitions and combined exactly as in the source control flow. -/

/-- Strategy 1 (source line 436): split on blank-line boundaries, strip each
piece, keep the non-empty ones. -/
def strategy1 (script : List Char) : List (List Char) :=
  ((splitOnDoubleNewlineAux script []).map stripChars).filter (fun s => decide (s ≠ []))

/-- Strategy 2 (source line 440): split on single newlines, keep stripped
pieces that are non-empty and longer than 20 characters. -/
def strategy2 (script : List Char) : List (List Char) :=
  ((splitOnCharAux '\n' script []).map stripChars).filter
    (fun s => decide (s ≠ []) && decide (20 < s.length))

/-- The sentence list of strategy 3 (source lines 444-445): regex split at
sentence boundaries, strip, drop empties. -/
def sentencesOf (script : List Char) : List (List Char) :=
  ((splitSentences script).map stripChars).filter (fun s => decide (s ≠ []))

/-- The grouping loop of strategy 3 (source lines 448-465): append each
sentence to the current group, flushing the group as one segment once it
reaches 30 words or 3 sentences; flush any remainder at the end.  The
current group is held in reverse order. -/
def groupSentences : List (List Char) → List (List Char) → Nat → List (List Char)
  | [], cur, _ => if cur = [] then [] else [joinSpace cur.reverse]
  | s :: rest, cur, words =>
    if 30 ≤ words + wordCount s ∨ 3 ≤ (s :: cur).length then
      joinSpace (s :: cur).reverse :: groupSentences rest [] 0
    else groupSentences rest (s :: cur) (words + wordCount s)

/-- Strategy 3 (source lines 443-465). -/
def strategy3 (script : List Char) : List (List Char) :=
  groupSentences (sentencesOf script) [] 0

/-- Model of `_parse_script_segments` (source lines 433-467): strategy 1,
replaced by strategy 2 when it yields fewer than 3 segments, replaced by
strategy 3 when that still yields fewer than 3; if the final list is empty
the whole script becomes the single segment. -/
def parse_script_segments (script : List Char) : List (List Char) :=
  if (strategy1 script).length < 3 then
    if (strategy2 script).length < 3 then
      if strategy3 script = [] then [script] else strategy3 script
    else strategy2 script
  else strategy1 script

/-! ### SegmentAllocator: duration assignment

Source lines 522-538 of `_create_clips_with_typewriter`.  The float
arithmetic of the source is modelled exactly over the rationals. -/

/-- Apply a function to the last element of a list, as the in-place update
of the source line 538 does. -/
def updateLast (f : ℚ → ℚ) : List ℚ → List ℚ
  | [] => []
  | [x] => [f x]
  | x :: y :: xs => x :: updateLast f (y :: xs)

/-- The proportional allocation loop of source lines 528-533: each segment
receives a share of the audio duration proportional to its word count, or
an equal share when the total word count is zero. -/
def raw_durations (segments : List (List Char)) (duration : ℚ) : List ℚ :=
  segments.map (fun s =>
    duration * (if 0 < (segments.map wordCount).sum
                then (wordCount s : ℚ) / (((segments.map wordCount).sum : Nat) : ℚ)
                else 1 / (segments.length : ℚ)))

/-- Model of the duration allocation of `_create_clips_with_typewriter`
(source lines 522-538): the proportional allocation, followed by the drift
correction of lines 536-538 that adds any drift whose magnitude exceeds 0.1
to the last segment. -/
def segment_durations (segments : List (List Char)) (duration : ℚ) : List ℚ :=
  let raw := raw_durations segments duration
  let diff := duration - raw.sum
  if 1 / 10 < |diff| then updateLast (· + diff) raw else raw

/-! ### AssetResolver: images (`_download_pexels_images`, source lines 469-515)

The `requests` calls are modelled by an environment record: `searchResult`
is `none` on a network/HTTP error of the search call, `some urls` on a
successful response (possibly with an empty photo list), and `downloadOk`
is false when one of the image downloads raises.  Every raising path of the
source is inside the try/except that returns the empty list. -/

structure PexelsEnv where
  apiKeyPresent : Bool
  searchResult : Option (List String)
  downloadOk : Bool

/-- Model of `_download_pexels_images`: missing credential, search error,
empty photo list, or a failed download all yield the empty list; on success
up to `count` images are downloaded to deterministic cache paths. -/
def download_pexels_images (env : PexelsEnv) (count : Nat) : List String :=
  if env.apiKeyPresent = false then []
  else
    match env.searchResult with
    | none => []
    | some photos =>
      if photos = [] then []
      else if env.downloadOk then
        (List.range (min count photos.length)).map
          (fun i => "assets/images/pexels_" ++ toString i ++ ".jpg")
      else []

/-- The failure conditions of the image path named by the specification:
missing credential, network/HTTP error, empty provider result set, or a
failed download. -/
def pexelsFailure (env : PexelsEnv) : Prop :=
  env.apiKeyPresent = false ∨ env.searchResult = none ∨
    env.searchResult = some [] ∨ env.downloadOk = false

/-! ### AssetResolver: music fallback chain

`_get_background_music` (source lines 84-107), `_search_pixabay_music`
(source lines 154-247) and `_download_from_freesound` (source lines
249-317).  The external searches are modelled by an environment record in
which `pixabayResult` (resp. `freesoundResult`) is `some path` when the
corresponding search-and-download succeeds and `none` on any of its failure
modes (non-200 status, no hits, no playable URL, exception).  `cacheFiles`
is the listing of the local music cache directory, and the `random.choice`
among cached tracks is modelled as taking the first one. -/

inductive MusicTier
  | pixabay
  | freesound
  | cacheT
deriving DecidableEq, Repr

structure MusicEnv where
  useMusic : Bool
  pixabayKeyPresent : Bool
  freesoundKeyPresent : Bool
  pixabayResult : Option String
  freesoundResult : Option String
  cacheFiles : List String

/-- Model of `_download_from_freesound`: attempt the Freesound search when
its credential is configured; on failure, or without the credential, fall
back to a previously cached track.  The first component records which tiers
were attempted, in order. -/
def download_from_freesound (env : MusicEnv) : List MusicTier × Option String :=
  if env.freesoundKeyPresent then
    match env.freesoundResult with
    | some p => ([MusicTier.freesound], some p)
    | none => ([MusicTier.freesound, MusicTier.cacheT], env.cacheFiles.head?)
  else ([MusicTier.cacheT], env.cacheFiles.head?)

/-- Model of `_search_pixabay_music`: `none` without the Pixabay credential;
otherwise the Pixabay search, falling back to `_download_from_freesound` on
any of its failure modes. -/
def search_pixabay_music (env : MusicEnv) : List MusicTier × Option String :=
  if env.pixabayKeyPresent then
    match env.pixabayResult with
    | some p => ([MusicTier.pixabay], some p)
    | none =>
      let r := download_from_freesound env
      (MusicTier.pixabay :: r.1, r.2)
  else ([], none)

/-- Model of the resolution part of `_get_background_music` (source lines
84-107): when music is enabled, call `_search_pixabay_music` only when the
Pixabay credential is configured, and otherwise (or on its failure) use a
previously cached track when one exists. -/
def get_background_music (env : MusicEnv) : List MusicTier × Option String :=
  if env.useMusic then
    let r := if env.pixabayKeyPresent then search_pixabay_music env else ([], none)
    match r.2 with
    | some p => (r.1, some p)
    | none =>
      match env.cacheFiles.head? with
      | some p => (r.1 ++ [MusicTier.cacheT], some p)
      | none => (r.1, none)
  else ([], none)

/-! ### Music cache idempotence (`_search_pixabay_music`, source lines 224-243) -/

/-- Model of the filename sanitization of source line 225: keep alphanumeric
characters, replace every other character by an underscore. -/
def safeQuery (q : String) : String :=
  String.mk (q.toList.map (fun c => if c.isAlphanum then c else '_'))

/-- Model of the cache filename of source line 226, derived from the query
and the provider track id. -/
def music_filename (q : String) (id : Nat) : String :=
  "pixabay_" ++ safeQuery q ++ "_" ++ toString id ++ ".mp3"

structure MusicCache where
  files : List String

/-- Model of the download step of source lines 229-243: when the cache file
already exists no download is performed; otherwise the track is downloaded
once and the file is added to the cache.  The last component counts network
downloads performed by the call. -/
def download_pixabay_track (st : MusicCache) (q : String) (id : Nat) :
    MusicCache × String × Nat :=
  let fname := music_filename q id
  if fname ∈ st.files then (st, fname, 0)
  else (⟨fname :: st.files⟩, fname, 1)

/-! ### Music normalization (`_get_background_music`, source lines 109-148)

`AudioFileClip` durations are modelled as rationals; looping, trimming,
volume scaling and the fades are recorded in a `PreparedMusic` value. -/

structure PreparedMusic where
  duration : ℚ
  volume : ℚ
  fadeIn : Option ℚ
  fadeOut : Option ℚ

/-- Model of `int(duration / music.duration) + 1` (source line 116); for
positive arguments Python `int` truncation is the floor. -/
def loops_needed (trackLen target : ℚ) : Nat := (Int.floor (target / trackLen)).toNat + 1

/-- Model of the normalization of source lines 109-148: when the track is
shorter than the target it is concatenated with itself `loops_needed`
times; the result is trimmed to the target duration and the fixed volume
scale is applied.  The fade block of lines 136-146 first tries the effects
API, then the direct fade calls, and on a second failure silently skips
both fades; `fadeSupported` models whether the installed audio library
supports either fade call, so the 2-second fade-in and 3-second fade-out
are recorded only when it does, and the track is returned unfaded
otherwise. -/
def prepare_music (fadeSupported : Bool) (trackLen target vol : ℚ) : PreparedMusic :=
  let looped := if trackLen < target then (loops_needed trackLen target : ℚ) * trackLen
                else trackLen
  { duration := min target looped
    volume := vol
    fadeIn := if fadeSupported then some 2 else none
    fadeOut := if fadeSupported then some 3 else none }

/-! ### Configuration and constructor (`VideoGenerator.__init__`, source lines 31-57) -/

structure Config where
  resolution : Nat × Nat
  fps : Nat
  overlayOpacity : ℚ
  backgroundMusic : Bool
  musicVolume : ℚ
deriving DecidableEq

structure VideoGeneratorState where
  resolution : Nat × Nat
  fps : Nat
  text_overlay_opacity : ℚ
  use_background_music : Bool
  music_volume : ℚ
deriving DecidableEq

/-- Model of `VideoGenerator.__init__`: resolution, fps and the music
settings are read from the configuration; the text overlay opacity is the
hard-coded constant 0.7 of source line 51 and does not read the
configuration. -/
def video_generator_init (config : Config) : VideoGeneratorState :=
  { resolution := config.resolution
    fps := config.fps
    text_overlay_opacity := 7 / 10
    use_background_music := config.backgroundMusic
    music_volume := config.musicVolume }

/-! ### EffectPipeline: legibility overlay (`_create_dark_overlay`, source lines 673-677)

`Image.new` with a single RGBA color yields a uniform full-frame layer, so
the overlay is represented by its dimensions, its one color, and the clip
duration.  `int(255 * opacity)` truncates; the operands are nonnegative, so
it is the floor. -/

structure OverlayClip where
  width : Nat
  height : Nat
  red : Nat
  green : Nat
  blue : Nat
  alpha : Nat
  duration : ℚ
deriving DecidableEq

/-- Model of `_create_dark_overlay`. -/
def create_dark_overlay (st : VideoGeneratorState) (duration : ℚ) : OverlayClip :=
  { width := st.resolution.1
    height := st.resolution.2
    red := 0
    green := 0
    blue := 0
    alpha := (Int.floor ((255 : ℚ) * st.text_overlay_opacity)).toNat
    duration := duration }

/-! ### EffectPipeline: caption rendering (`_create_text_image_clip`, source lines 686-749)

`textwrap.wrap` and the PIL font-metric call `draw.textbbox` are external
library functions; they are passed as oracle parameters `wrap` (wrapping one
paragraph into lines) and `widthOf` (the pixel width of a line).  A
`DrawOp` records one rendered line with the base position at which the
source draws it (the 11 by 11 black outline passes and the fill pass of
source lines 734-742 all use the same base position). -/

structure DrawOp where
  line : List Char
  x : ℚ
  y : ℚ

/-- Model of the horizontal placement of one caption line (source lines
726-730): center the line, clamp to the 150-pixel minimum left margin, and
reset to the minimum margin when the line would cross the symmetric right
margin. -/
def xText (width lineWidth : ℚ) : ℚ :=
  let x0 := max 150 ((width - lineWidth) / 2)
  if width - 150 < x0 + lineWidth then 150 else x0

/-- Model of `_create_text_image_clip`: split the text on newlines, wrap
each paragraph, vertically center the block of lines with an 80-pixel line
step, and place each line with `xText`.  The `isTitle` and `title`
arguments are received exactly as in the source signature; the source body
never reads them. -/
def create_text_image_clip (wrap : List Char → List (List Char))
    (widthOf : List Char → ℚ) (width height : ℚ) (text : List Char)
    (isTitle : Bool) (title : Option (List Char)) : List DrawOp :=
  let wrapped := ((splitOnCharAux '\n' text []).map wrap).flatten
  let y0 := (height - 80 * (wrapped.length : ℚ)) / 2
  wrapped.enum.map (fun p =>
    { line := p.2
      x := xText width (widthOf p.2)
      y := y0 + 80 * (p.1 : ℚ) })

/-! ### EffectPipeline: clip assembly (`_create_clips_with_typewriter`, source lines 540-564)

One `SegmentClip` per segment: the background is the downloaded image at
the segment index when one is available and the procedural dark background
otherwise; the caption arguments are those passed to
`_create_typewriter_text` (which delegates to `_create_text_image_clip`). -/

inductive Background
  | image : String → Background
  | procedural : Background
deriving DecidableEq

structure SegmentClip where
  background : Background
  duration : ℚ
  text : List Char
  isTitle : Bool
  titleArg : Option (List Char)

/-- Model of the clip-creation loop of `_create_clips_with_typewriter`
(source lines 540-564). -/
def create_clips_with_typewriter (segments : List (List Char))
    (image_paths : List String) (duration : ℚ) (title : List Char) :
    List SegmentClip :=
  let durs := segment_durations segments duration
  (segments.zip durs).enum.map (fun p =>
    { background :=
        if image_paths ≠ [] ∧ p.1 < image_paths.length
        then Background.image (image_paths.getD p.1 "")
        else Background.procedural
      duration := p.2.2
      text := p.2.1
      isTitle := p.1 = 0
      titleArg := if p.1 = 0 then some title else none })

/-- Helper word list with `n` single-letter words, used for the concrete
examples of the testable properties. -/
def mkWords : Nat → List Char
  | 0 => []
  | 1 => ['a']
  | n + 2 => 'a' :: ' ' :: mkWords (n + 1)

/-! ### Supporting lemmas -/

/-- A list containing a non-whitespace character has at least one word. -/
theorem wordCount_pos {l : List Char} (h : ∃ c ∈ l, ¬c.isWhitespace) :
    1 ≤ wordCount l := by
  unfold wordCount
  induction l with
  | nil => obtain ⟨c, hc, _⟩ := h; cases hc
  | cons a t ih =>
    obtain ⟨c, hc, hcw⟩ := h
    by_cases ha : a.isWhitespace
    · have hct : c ∈ t := by
        rcases List.mem_cons.mp hc with rfl | hm
        · exact absurd ha hcw
        · exact hm
      simpa [countWordsAux, ha] using ih ⟨c, hct, hcw⟩
    · simp [countWordsAux, ha]

/-- The head of `dropWhile p` fails `p` and is a member of the result. -/
theorem dropWhile_head?_spec {α : Type} (p : α → Bool) (l : List α) (a : α)
    (h : (l.dropWhile p).head? = some a) : p a = false ∧ a ∈ l.dropWhile p := by
  induction l with
  | nil => simp at h
  | cons b t ih =>
    by_cases hb : p b
    · rw [List.dropWhile_cons_of_pos hb] at h ⊢
      exact ih h
    · rw [List.dropWhile_cons_of_neg hb] at h ⊢
      obtain rfl : b = a := by simpa using h
      exact ⟨Bool.of_not_eq_true hb, List.mem_cons_self _ _⟩

/-- A non-empty stripped string contains a non-whitespace character. -/
theorem stripChars_has_nonspace {l : List Char} (h : stripChars l ≠ []) :
    ∃ c ∈ stripChars l, ¬c.isWhitespace := by
  have hXne : (l.dropWhile Char.isWhitespace).reverse.dropWhile Char.isWhitespace ≠ [] := by
    intro hnil
    apply h
    unfold stripChars
    rw [hnil]
    rfl
  obtain ⟨a, t, hat⟩ := List.exists_cons_of_ne_nil hXne
  have ha : ((l.dropWhile Char.isWhitespace).reverse.dropWhile Char.isWhitespace).head?
      = some a := by rw [hat]; rfl
  obtain ⟨hpa, hmem⟩ := dropWhile_head?_spec _ _ _ ha
  refine ⟨a, ?_, by simp [hpa]⟩
  unfold stripChars
  exact List.mem_reverse.mpr hmem

/-- A character of the first piece occurs in the space-join. -/
theorem mem_joinSpace_head {c : Char} {s : List Char} (rest : List (List Char))
    (hc : c ∈ s) : c ∈ joinSpace (s :: rest) := by
  cases rest with
  | nil => simpa [joinSpace] using hc
  | cons t r => simp [joinSpace, hc]

/-- Every group produced by the sentence-grouping loop contains a
non-whitespace character, provided every pending and every remaining
sentence does. -/
theorem groupSentences_has_nonspace :
    ∀ (sents : List (List Char)) (cur : List (List Char)) (w : Nat)
      (g : List Char),
      (∀ x ∈ sents, ∃ c ∈ x, ¬c.isWhitespace) →
      (∀ x ∈ cur, ∃ c ∈ x, ¬c.isWhitespace) →
      g ∈ groupSentences sents cur w → ∃ c ∈ g, ¬c.isWhitespace := by
  intro sents
  induction sents with
  | nil =>
    intro cur w g _ hcur hg
    unfold groupSentences at hg
    by_cases hc : cur = []
    · simp [hc] at hg
    · rw [if_neg hc] at hg
      obtain rfl : g = joinSpace cur.reverse := by simpa using hg
      have hrev : cur.reverse ≠ [] := by simpa using hc
      obtain ⟨a, t, hat⟩ := List.exists_cons_of_ne_nil hrev
      have ha : a ∈ cur := List.mem_reverse.mp (hat ▸ List.mem_cons_self _ _)
      obtain ⟨c, hcs, hcw⟩ := hcur a ha
      exact ⟨c, by rw [hat]; exact mem_joinSpace_head t hcs, hcw⟩
  | cons s rest ih =>
    intro cur w g hall hcur hg
    have hs : ∃ c ∈ s, ¬c.isWhitespace := hall s (List.mem_cons_self _ _)
    have hrest : ∀ x ∈ rest, ∃ c ∈ x, ¬c.isWhitespace :=
      fun x hx => hall x (List.mem_cons_of_mem _ hx)
    have hcur' : ∀ x ∈ s :: cur, ∃ c ∈ x, ¬c.isWhitespace := by
      intro x hx
      rcases List.mem_cons.mp hx with rfl | hx'
      · exact hs
      · exact hcur x hx'
    unfold groupSentences at hg
    by_cases hcond : 30 ≤ w + wordCount s ∨ 3 ≤ (s :: cur).length
    · rw [if_pos hcond] at hg
      rcases List.mem_cons.mp hg with rfl | hg'
      · have hrev : (s :: cur).reverse ≠ [] := by simp
        obtain ⟨a, t, hat⟩ := List.exists_cons_of_ne_nil hrev
        have ha : a ∈ s :: cur := List.mem_reverse.mp (hat ▸ List.mem_cons_self _ _)
        obtain ⟨c, hcs, hcw⟩ := hcur' a ha
        exact ⟨c, by rw [hat]; exact mem_joinSpace_head t hcs, hcw⟩
      · exact ih [] 0 g hrest (by simp) hg'
    · rw [if_neg hcond] at hg
      exact ih (s :: cur) (w + wordCount s) g hrest hcur' hg

/-- Every segment produced by strategy 1 contains a non-whitespace
character. -/
theorem strategy1_has_nonspace {t s : List Char} (h : s ∈ strategy1 t) :
    ∃ c ∈ s, ¬c.isWhitespace := by
  unfold strategy1 at h
  obtain ⟨hm, hne⟩ := List.mem_filter.mp h
  obtain ⟨p, _, rfl⟩ := List.mem_map.mp hm
  exact stripChars_has_nonspace (by simpa using hne)

/-- Every segment produced by strategy 2 contains a non-whitespace
character. -/
theorem strategy2_has_nonspace {t s : List Char} (h : s ∈ strategy2 t) :
    ∃ c ∈ s, ¬c.isWhitespace := by
  unfold strategy2 at h
  obtain ⟨hm, hne⟩ := List.mem_filter.mp h
  obtain ⟨p, _, rfl⟩ := List.mem_map.mp hm
  have : stripChars p ≠ [] := by
    simp only [Bool.and_eq_true, decide_eq_true_eq] at hne
    exact hne.1
  exact stripChars_has_nonspace this

/-- Every stripped sentence fed into the grouping loop contains a
non-whitespace character. -/
theorem sentencesOf_has_nonspace {t s : List Char} (h : s ∈ sentencesOf t) :
    ∃ c ∈ s, ¬c.isWhitespace := by
  unfold sentencesOf at h
  obtain ⟨hm, hne⟩ := List.mem_filter.mp h
  obtain ⟨p, _, rfl⟩ := List.mem_map.mp hm
  exact stripChars_has_nonspace (by simpa using hne)

/-- Every segment produced by strategy 3 contains a non-whitespace
character. -/
theorem strategy3_has_nonspace {t s : List Char} (h : s ∈ strategy3 t) :
    ∃ c ∈ s, ¬c.isWhitespace :=
  groupSentences_has_nonspace (sentencesOf t) [] 0 s
    (fun _ hx => sentencesOf_has_nonspace hx) (by simp) h

/-- Every segment returned by the parser has at least one word, except in
the degenerate case where the whole script became the single segment. -/
theorem parse_segments_wordCount (t : List Char) :
    (∀ s ∈ parse_script_segments t, 1 ≤ wordCount s) ∨
      parse_script_segments t = [t] := by
  unfold parse_script_segments
  split_ifs with h1 h2 h3
  · right; rfl
  · left; intro s hs; exact wordCount_pos (strategy3_has_nonspace hs)
  · left; intro s hs; exact wordCount_pos (strategy2_has_nonspace hs)
  · left; intro s hs; exact wordCount_pos (strategy1_has_nonspace hs)

/-- Summing the proportional shares gives the duration times the total
ratio. -/
theorem sum_map_ratio (D T : ℚ) :
    ∀ l : List (List Char),
      (l.map (fun s => D * ((wordCount s : ℚ) / T))).sum
        = D * ((((l.map wordCount).sum : Nat) : ℚ) / T)
  | [] => by simp
  | s :: rest => by
    simp only [List.map_cons, List.sum_cons, sum_map_ratio D T rest]
    push_cast
    ring

/-- Summing a constant share over a list. -/
theorem sum_map_const (c : ℚ) :
    ∀ l : List (List Char), (l.map (fun _ => c)).sum = (l.length : ℚ) * c
  | [] => by simp
  | s :: rest => by
    simp only [List.map_cons, List.sum_cons, sum_map_const c rest, List.length_cons]
    push_cast
    ring

/-- The raw proportional durations sum exactly to the audio duration. -/
theorem raw_durations_sum (segs : List (List Char)) (D : ℚ) (hne : segs ≠ []) :
    (raw_durations segs D).sum = D := by
  unfold raw_durations
  by_cases h : 0 < (segs.map wordCount).sum
  · have hT : (((segs.map wordCount).sum : Nat) : ℚ) ≠ 0 :=
      Nat.cast_ne_zero.mpr h.ne'
    simp only [if_pos h]
    rw [sum_map_ratio, div_self hT, mul_one]
  · have hlen : ((segs.length : Nat) : ℚ) ≠ 0 := by
      have : segs.length ≠ 0 := fun hl => hne (List.length_eq_zero.mp hl)
      exact_mod_cast this
    simp only [if_neg h]
    rw [sum_map_const]
    field_simp

/-- With a non-empty segment list the drift is zero, so the correction of
line 538 never fires and the durations are exactly the raw proportional
allocation. -/
theorem segment_durations_eq_raw (segs : List (List Char)) (D : ℚ)
    (hne : segs ≠ []) : segment_durations segs D = raw_durations segs D := by
  simp only [segment_durations]
  rw [raw_durations_sum segs D hne, sub_self, abs_zero]
  norm_num

/-- The parser never returns an empty segment list. -/
theorem parse_nonempty (t : List Char) : parse_script_segments t ≠ [] := by
  unfold parse_script_segments
  split_ifs with h1 h2 h3
  · simp
  · exact h3
  · intro heq
    rw [heq] at h2
    simp at h2
  · intro heq
    rw [heq] at h1
    simp at h1

/-- `updateLast` preserves the length. -/
theorem updateLast_length (f : ℚ → ℚ) :
    ∀ l : List ℚ, (updateLast f l).length = l.length
  | [] => rfl
  | [_] => rfl
  | x :: y :: xs => by
    simp only [updateLast, List.length_cons, updateLast_length f (y :: xs)]

/-- The allocator returns one duration per segment. -/
theorem segment_durations_length (segs : List (List Char)) (D : ℚ) :
    (segment_durations segs D).length = segs.length := by
  simp only [segment_durations]
  split
  · rw [updateLast_length]
    unfold raw_durations
    rw [List.length_map]
  · unfold raw_durations
    rw [List.length_map]

/-! ### Claim theorems -/

/-- C1: for every narration text and every audio duration D greater than 0,
the segment durations computed by the allocation of
`_create_clips_with_typewriter` (proportional allocation followed by drift
correction on the last segment) sum to within 0.1 of D, and every
individual segment duration is positive. -/
theorem duration_sum_invariant (text : List Char) (D : ℚ) (hD : 0 < D) :
    |(segment_durations (parse_script_segments text) D).sum - D| < 1 / 10 ∧
      ∀ d ∈ segment_durations (parse_script_segments text) D, 0 < d := by
  have hne := parse_nonempty text
  rw [segment_durations_eq_raw _ _ hne, raw_durations_sum _ _ hne]
  constructor
  · rw [sub_self, abs_zero]
    norm_num
  · intro d hd
    unfold raw_durations at hd
    obtain ⟨s, hs, rfl⟩ := List.mem_map.mp hd
    rcases parse_segments_wordCount text with hall | hsingle
    · have hwc : 1 ≤ wordCount s := hall s hs
      have htot : 0 < ((parse_script_segments text).map wordCount).sum := by
        have hmem : wordCount s ∈ (parse_script_segments text).map wordCount :=
          List.mem_map_of_mem wordCount hs
        have := List.single_le_sum (fun x _ => Nat.zero_le x) _ hmem
        omega
      simp only [if_pos htot]
      have hwq : (0 : ℚ) < (wordCount s : ℚ) := by exact_mod_cast hwc
      have htq : (0 : ℚ) < (((parse_script_segments text).map wordCount).sum : ℚ) := by
        exact_mod_cast htot
      exact mul_pos hD (div_pos hwq htq)
    · rw [hsingle] at hs ⊢
      by_cases hw : 0 < (([text].map wordCount).sum)
      · simp only [if_pos hw]
        have hwq : (0 : ℚ) < ((([text].map wordCount).sum : Nat) : ℚ) := by
          exact_mod_cast hw
        have hs' : s ∈ [text] := hs
        exact mul_pos hD (by
          rw [List.mem_singleton.mp hs']
          have : (([text].map wordCount).sum : Nat) = wordCount text := by simp
          rw [this] at hwq ⊢
          exact div_pos hwq hwq)
      · simp only [if_neg hw, List.length_singleton]
        norm_num
        exact hD

/-- C1 witness at a concrete input. -/
theorem duration_sum_invariant_witness :
    (0 : ℚ) < 1 ∧
      (|(segment_durations (parse_script_segments ['h', 'i']) 1).sum - 1| < 1 / 10 ∧
        ∀ d ∈ segment_durations (parse_script_segments ['h', 'i']) 1, 0 < d) :=
  ⟨by norm_num, duration_sum_invariant ['h', 'i'] 1 (by norm_num)⟩

/-- C6: each segment is allocated `duration * word_count / total_word_count`
when the total word count is positive, an equal share when it is zero, and
for word counts 10, 20, 30 with total duration 60 the durations are exactly
10, 20, 30. -/
theorem proportional_allocation (segs : List (List Char)) (D : ℚ)
    (hne : segs ≠ []) :
    (0 < (segs.map wordCount).sum →
      segment_durations segs D = segs.map
        (fun s => D * ((wordCount s : ℚ) / (((segs.map wordCount).sum : Nat) : ℚ)))) ∧
    ((segs.map wordCount).sum = 0 →
      segment_durations segs D = segs.map (fun _ => D * (1 / (segs.length : ℚ)))) ∧
    segment_durations [mkWords 10, mkWords 20, mkWords 30] 60 = [10, 20, 30] := by
  refine ⟨?_, ?_, ?_⟩
  · intro h
    rw [segment_durations_eq_raw _ _ hne]
    unfold raw_durations
    simp only [if_pos h]
  · intro h
    rw [segment_durations_eq_raw _ _ hne]
    unfold raw_durations
    simp only [h]
    norm_num
  · have h10 : wordCount (mkWords 10) = 10 := by decide
    have h20 : wordCount (mkWords 20) = 20 := by decide
    have h30 : wordCount (mkWords 30) = 30 := by decide
    simp only [segment_durations, raw_durations, List.map_cons, List.map_nil,
      List.sum_cons, List.sum_nil, h10, h20, h30]
    norm_num

/-- C6 witness at a concrete input. -/
theorem proportional_allocation_witness :
    segment_durations [mkWords 10, mkWords 20, mkWords 30] 60 = [10, 20, 30] :=
  (proportional_allocation [mkWords 10] 60 (by simp)).2.2

/-- C9: the parser returns at least one segment for non-empty input, and
when all three splitting strategies yield zero segments the result is
exactly one segment holding the entire original text. -/
theorem parse_min_segmentation (t : List Char) (h : t ≠ []) :
    1 ≤ (parse_script_segments t).length ∧
      (strategy1 t = [] → strategy2 t = [] → strategy3 t = [] →
        parse_script_segments t = [t]) := by
  constructor
  · exact List.length_pos.mpr (parse_nonempty t)
  · intro h1 h2 h3
    unfold parse_script_segments
    simp [h1, h2, h3]

/-- C9 witness at a concrete input (a whitespace-only script, on which all
three strategies yield zero segments). -/
theorem parse_min_segmentation_witness :
    ([' '] : List Char) ≠ [] ∧
      (1 ≤ (parse_script_segments [' ']).length ∧
        (strategy1 [' '] = [] → strategy2 [' '] = [] → strategy3 [' '] = [] →
          parse_script_segments [' '] = [[' ']])) :=
  ⟨by simp, parse_min_segmentation [' '] (by simp)⟩

/-- The computed left x-position never falls below the 150-pixel minimum
margin. -/
theorem xText_left_margin (W w : ℚ) : 150 ≤ xText W w := by
  simp only [xText]
  split
  · exact le_refl 150
  · exact le_max_left _ _

/-- When the line is narrow enough the right edge stays inside the
symmetric right margin. -/
theorem xText_right_margin (W w : ℚ) (h : w ≤ W - 300) :
    xText W w + w ≤ W - 150 := by
  simp only [xText]
  split_ifs with hc
  · linarith
  · linarith [le_of_not_lt hc]

/-- C2 counterexample: on a 1920-pixel-wide frame, a caption line of pixel
width 1700 is rendered by `_create_text_image_clip` at x = 150, and its
right edge 150 + 1700 exceeds 1920 - 150, refuting the claim that the
right-margin bound holds regardless of the line's pixel width. -/
theorem caption_margin_counterexample :
    create_text_image_clip (fun l => [l]) (fun _ => (1700 : ℚ))
        1920 1080 ['a'] false none
      = [⟨['a'], 150, (1080 - 80 * 1) / 2 + 80 * 0⟩] ∧
      ¬((150 : ℚ) + 1700 ≤ 1920 - 150) := by
  have hx : xText 1920 1700 = 150 := by
    simp only [xText]
    rw [max_eq_left (by norm_num : ((1920 : ℚ) - 1700) / 2 ≤ 150)]
    norm_num
  constructor
  · rw [← hx]
    simp [create_text_image_clip, splitOnCharAux, List.enum, List.enumFrom]
  · norm_num

/-- C2 (amended): every caption line rendered by `_create_text_image_clip`
has left x-position at least the 150-pixel minimum margin, unconditionally;
and whenever that line's pixel width is at most `resolution_width - 300`,
its right edge `x + line_width` stays within `resolution_width - 150`. -/
theorem caption_margin_invariant (wrap : List Char → List (List Char))
    (widthOf : List Char → ℚ) (W H : ℚ) (text : List Char) (isTitle : Bool)
    (title : Option (List Char)) :
    ∀ op ∈ create_text_image_clip wrap widthOf W H text isTitle title,
      150 ≤ op.x ∧
        (widthOf op.line ≤ W - 300 → op.x + widthOf op.line ≤ W - 150) := by
  intro op hop
  simp only [create_text_image_clip, List.mem_map] at hop
  obtain ⟨p, _, rfl⟩ := hop
  exact ⟨xText_left_margin _ _, fun hw => xText_right_margin _ _ hw⟩

/-- C2 witness at a concrete input. -/
theorem caption_margin_invariant_witness :
    (⟨['a'], xText 1920 100, (1080 - 80 * 1) / 2 + 80 * 0⟩ : DrawOp)
        ∈ create_text_image_clip (fun l => [l]) (fun _ => (100 : ℚ))
            1920 1080 ['a'] false none ∧
      (150 ≤ xText 1920 100 ∧
        ((100 : ℚ) ≤ 1920 - 300 → xText 1920 100 + 100 ≤ 1920 - 150)) := by
  have hmem : (⟨['a'], xText 1920 100, (1080 - 80 * 1) / 2 + 80 * 0⟩ : DrawOp)
      ∈ create_text_image_clip (fun l => [l]) (fun _ => (100 : ℚ))
          1920 1080 ['a'] false none := by
    simp [create_text_image_clip, splitOnCharAux, List.enum, List.enumFrom]
  exact ⟨hmem, caption_margin_invariant (fun l => [l]) (fun _ => (100 : ℚ))
    1920 1080 ['a'] false none _ hmem⟩

/-- C3: the active caption renderer `_create_text_image_clip` never reads
its `is_title` and `title` arguments, so its output is the same whether or
not a title is supplied: contrary to the claim, no title is rendered for
the first segment. -/
theorem create_text_image_clip_ignores_title (wrap : List Char → List (List Char))
    (widthOf : List Char → ℚ) (W H : ℚ) (text : List Char) (isTitle : Bool)
    (title : Option (List Char)) :
    create_text_image_clip wrap widthOf W H text isTitle title
      = create_text_image_clip wrap widthOf W H text false none := rfl

/-- A concrete environment in which the primary music credential is absent
while the secondary credential is configured and would succeed, and the
cache holds a track. -/
def musicEnvNoPrimary : MusicEnv :=
  ⟨true, false, true, none, some "freesound_42.mp3", ["cached.mp3"]⟩

/-- C4 counterexample: with the primary credential absent, the secondary
credential configured (and its search able to succeed), and a populated
cache, `_get_background_music` returns the cached track and the secondary
(Freesound) tier is never attempted: the claim that the secondary tier is
attempted before falling back to the cache fails. -/
theorem music_fallback_counterexample :
    (get_background_music musicEnvNoPrimary).2 = some "cached.mp3" ∧
      MusicTier.freesound ∉ (get_background_music musicEnvNoPrimary).1 := by
  constructor
  · rfl
  · decide

/-- C4 (amended): the fallback chain tries its tiers in order, stopping at
the first success — (1) the primary search when its credential is
configured; (2) on failure of tier 1, the secondary (Freesound) search when
its credential is configured; (3) a cached track; (4) no music — except
that the secondary tier is reachable only from a failing primary attempt:
when the primary credential is absent the secondary tier is never
attempted, even when its credential is configured, and resolution goes
directly to the cache tier. -/
theorem music_fallback_order (env : MusicEnv) (hu : env.useMusic = true) :
    (∀ p, env.pixabayKeyPresent = true → env.pixabayResult = some p →
      get_background_music env = ([MusicTier.pixabay], some p)) ∧
    (∀ p, env.pixabayKeyPresent = true → env.pixabayResult = none →
      env.freesoundKeyPresent = true → env.freesoundResult = some p →
      get_background_music env
        = ([MusicTier.pixabay, MusicTier.freesound], some p)) ∧
    (env.pixabayKeyPresent = true → env.pixabayResult = none →
      env.freesoundKeyPresent = true → env.freesoundResult = none →
      get_background_music env
        = ([MusicTier.pixabay, MusicTier.freesound, MusicTier.cacheT],
            env.cacheFiles.head?)) ∧
    (env.pixabayKeyPresent = true → env.pixabayResult = none →
      env.freesoundKeyPresent = false →
      get_background_music env
        = ([MusicTier.pixabay, MusicTier.cacheT], env.cacheFiles.head?)) ∧
    (env.pixabayKeyPresent = false →
      MusicTier.freesound ∉ (get_background_music env).1 ∧
        (get_background_music env).2 = env.cacheFiles.head?) := by
  refine ⟨?_, ?_, ?_, ?_, ?_⟩
  · intro p hk hr
    unfold get_background_music search_pixabay_music
    rw [hu, hk, hr]
    simp
  · intro p hk hr hfk hfr
    unfold get_background_music search_pixabay_music download_from_freesound
    rw [hu, hk, hr, hfk, hfr]
    simp
  · intro hk hr hfk hfr
    unfold get_background_music search_pixabay_music download_from_freesound
    rw [hu, hk, hr, hfk, hfr]
    cases h : env.cacheFiles.head? <;> simp [h]
  · intro hk hr hfk
    unfold get_background_music search_pixabay_music download_from_freesound
    rw [hu, hk, hr, hfk]
    cases h : env.cacheFiles.head? <;> simp [h]
  · intro hp
    unfold get_background_music
    rw [hu, hp]
    cases h : env.cacheFiles.head? <;> simp [h]

/-- A concrete environment in which the primary credential is configured
and the primary search succeeds. -/
def musicEnvFull : MusicEnv :=
  ⟨true, true, true, some "pixabay_dark_ambient_7.mp3", some "freesound_42.mp3",
    ["cached.mp3"]⟩

/-- C4 witness at a concrete input: the primary tier succeeds and the chain
stops there. -/
theorem music_fallback_order_witness :
    musicEnvFull.useMusic = true ∧
      get_background_music musicEnvFull
        = ([MusicTier.pixabay], some "pixabay_dark_ambient_7.mp3") :=
  ⟨rfl, (music_fallback_order musicEnvFull rfl).1 "pixabay_dark_ambient_7.mp3" rfl rfl⟩

/-- A concrete image environment with the credential missing. -/
def pexelsEnvNoKey : PexelsEnv := ⟨false, none, true⟩

/-- C5: on any failure of image acquisition, `_download_pexels_images`
returns the empty list (the exception is absorbed, not escalated), and with
an empty image list the clip-creation loop produces exactly one clip per
segment, each with the procedural dark background. -/
theorem image_degradation (env : PexelsEnv) (count : Nat)
    (segs : List (List Char)) (D : ℚ) (title : List Char)
    (hfail : pexelsFailure env) (hne : segs ≠ []) :
    download_pexels_images env count = [] ∧
      (create_clips_with_typewriter segs [] D title).length = segs.length ∧
      ∀ clip ∈ create_clips_with_typewriter segs [] D title,
        clip.background = Background.procedural := by
  refine ⟨?_, ?_, ?_⟩
  · unfold download_pexels_images
    by_cases hk : env.apiKeyPresent = false
    · simp [hk]
    · rw [if_neg hk]
      rcases hfail with h | h | h | h
      · exact absurd h hk
      · rw [h]
      · rw [h]
        simp
      · cases hs : env.searchResult with
        | none => rfl
        | some photos => simp [h]
  · unfold create_clips_with_typewriter
    rw [List.length_map, List.enum_length, List.length_zip,
      segment_durations_length, min_self]
  · intro clip hclip
    unfold create_clips_with_typewriter at hclip
    simp only [List.mem_map] at hclip
    obtain ⟨p, _, rfl⟩ := hclip
    simp

/-- C5 witness at a concrete input. -/
theorem image_degradation_witness :
    pexelsFailure pexelsEnvNoKey ∧ ([['h', 'i']] : List (List Char)) ≠ [] ∧
      (download_pexels_images pexelsEnvNoKey 3 = [] ∧
        (create_clips_with_typewriter [['h', 'i']] [] 1 []).length = 1 ∧
        ∀ clip ∈ create_clips_with_typewriter [['h', 'i']] [] 1 [],
          clip.background = Background.procedural) := by
  refine ⟨Or.inl rfl, by simp, ?_⟩
  simpa using image_degradation pexelsEnvNoKey 3 [['h', 'i']] 1 [] (Or.inl rfl) (by simp)

/-- C7 counterexample: resolving the same query twice is not by itself
enough to avoid a second download, because the track is chosen by
`random.choice` among the hits (source line 222, with a random fallback id
at line 214): when the second resolution of the query selects a different
provider track, its cache filename differs and a second network download is
performed — refuting the claim that two same-query resolutions against a
populated cache perform at most one download. -/
theorem music_cache_counterexample :
    (download_pixabay_track ⟨[]⟩ "dark ambient" 1111).2.2 = 1 ∧
      (download_pixabay_track (download_pixabay_track ⟨[]⟩ "dark ambient" 1111).1
          "dark ambient" 2222).2.2 = 1 := by
  have hne : music_filename "dark ambient" 2222 ≠ music_filename "dark ambient" 1111 := by
    decide
  simp [download_pixabay_track, hne]

/-- C7 (amended): the music cache filename is a deterministic function of
the query and the provider track id, and an already-cached filename is
never re-downloaded; hence a second resolution of the same query that
selects the same provider track, against the cache left by the first,
performs no download and returns the same path — so the two resolutions
perform at most one download in total and both succeed. -/
theorem music_cache_idempotent (st : MusicCache) (q : String) (id : Nat) :
    (download_pixabay_track st q id).2.1 = music_filename q id ∧
      (download_pixabay_track (download_pixabay_track st q id).1 q id).2.1
        = music_filename q id ∧
      (download_pixabay_track (download_pixabay_track st q id).1 q id).2.2 = 0 ∧
      (download_pixabay_track st q id).2.2
          + (download_pixabay_track (download_pixabay_track st q id).1 q id).2.2
        ≤ 1 := by
  unfold download_pixabay_track
  by_cases h : music_filename q id ∈ st.files
  · simp [h]
  · simp [h]

/-- C8 counterexample: when the installed audio library supports neither
fade call, the except/pass path of source lines 137-146 returns the track
without any fade, so the fades are not applied unconditionally as the claim
states. -/
theorem music_fade_skip_counterexample :
    (prepare_music false 1 2 (3 / 20)).fadeIn = none ∧
      (prepare_music false 1 2 (3 / 20)).fadeOut = none :=
  ⟨rfl, rfl⟩

/-- C8 (amended): for every acquired track of positive length, the
normalization of `_get_background_music` yields a track of exactly the
target duration — when the track is shorter than the target, the
floor(target/length)+1 concatenated copies cover the target before
trimming — with the configured volume scale; the 2-second fade-in and
3-second fade-out are applied when the audio library supports a fade call,
and are silently skipped otherwise. -/
theorem music_normalization (fadeSupported : Bool) (trackLen target vol : ℚ)
    (hL : 0 < trackLen) (hD : 0 < target) :
    (prepare_music fadeSupported trackLen target vol).duration = target ∧
      (trackLen < target →
        target ≤ (loops_needed trackLen target : ℚ) * trackLen) ∧
      (prepare_music fadeSupported trackLen target vol).volume = vol ∧
      (fadeSupported = true →
        (prepare_music fadeSupported trackLen target vol).fadeIn = some 2 ∧
        (prepare_music fadeSupported trackLen target vol).fadeOut = some 3) ∧
      (fadeSupported = false →
        (prepare_music fadeSupported trackLen target vol).fadeIn = none ∧
        (prepare_music fadeSupported trackLen target vol).fadeOut = none) := by
  have hcov : trackLen < target →
      target ≤ (loops_needed trackLen target : ℚ) * trackLen := by
    intro _
    have hfl : (0 : ℤ) ≤ Int.floor (target / trackLen) :=
      Int.floor_nonneg.mpr (div_nonneg hD.le hL.le)
    have hlt : target / trackLen < ((Int.floor (target / trackLen) : ℤ) : ℚ) + 1 :=
      Int.lt_floor_add_one _
    have htn : ((((Int.floor (target / trackLen)).toNat : Nat)) : ℚ)
        = ((Int.floor (target / trackLen) : ℤ) : ℚ) := by
      norm_cast
      exact Int.toNat_of_nonneg hfl
    have hcast : ((loops_needed trackLen target : Nat) : ℚ)
        = ((Int.floor (target / trackLen) : ℤ) : ℚ) + 1 := by
      unfold loops_needed
      rw [Nat.cast_add, Nat.cast_one, htn]
    rw [hcast]
    have hdiv := (div_lt_iff₀ hL).mp hlt
    linarith
  have hdur : (prepare_music fadeSupported trackLen target vol).duration
      = min target (if trackLen < target
          then (loops_needed trackLen target : ℚ) * trackLen else trackLen) := rfl
  refine ⟨?_, hcov, rfl, ?_, ?_⟩
  · rw [hdur]
    split_ifs with hlt
    · exact min_eq_left (hcov hlt)
    · exact min_eq_left (le_of_not_lt hlt)
  · intro h
    subst h
    exact ⟨rfl, rfl⟩
  · intro h
    subst h
    exact ⟨rfl, rfl⟩

/-- C8 witness at a concrete input with the fades supported. -/
theorem music_normalization_witness :
    (0 : ℚ) < 1 ∧ (0 : ℚ) < 2 ∧
      ((prepare_music true 1 2 (3 / 20)).duration = 2 ∧
        ((1 : ℚ) < 2 → (2 : ℚ) ≤ (loops_needed 1 2 : ℚ) * 1) ∧
        (prepare_music true 1 2 (3 / 20)).volume = 3 / 20 ∧
        (true = true →
          (prepare_music true 1 2 (3 / 20)).fadeIn = some 2 ∧
          (prepare_music true 1 2 (3 / 20)).fadeOut = some 3) ∧
        ((true : Bool) = false →
          (prepare_music true 1 2 (3 / 20)).fadeIn = none ∧
          (prepare_music true 1 2 (3 / 20)).fadeOut = none)) :=
  ⟨by norm_num, by norm_num,
    music_normalization true 1 2 (3 / 20) (by norm_num) (by norm_num)⟩

/-- Concrete configurations differing in resolution and opacity. -/
def configA : Config := ⟨(1920, 1080), 30, 7 / 10, true, 3 / 20⟩

/-- A configuration with a different resolution than `configA`. -/
def configB : Config := ⟨(1280, 720), 30, 1 / 2, true, 3 / 20⟩

/-- A configuration with the resolution of `configA` but different opacity,
frame rate and music settings. -/
def configC : Config := ⟨(1920, 1080), 60, 1 / 2, false, 1 / 10⟩

/-- C10 counterexample: two runs with different configurations do not always
produce pixel-identical overlay layers, because the overlay dimensions come
from the configured resolution: the claim that the overlay does not depend
on the config input fails for configs with different resolutions. -/
theorem overlay_config_counterexample :
    create_dark_overlay (video_generator_init configA) 5
      ≠ create_dark_overlay (video_generator_init configB) 5 := by
  intro h
  have hw := congrArg OverlayClip.width h
  simp [create_dark_overlay, video_generator_init, configA, configB] at hw

/-- C10 (amended): the overlay alpha is the fixed constant
`int(255 * 0.7) = 178` for every configuration, and two runs whose
configurations agree on the resolution — in particular with different
overlay-opacity settings — produce identical overlay layers. -/
theorem overlay_opacity_fixed (c1 c2 : Config) (d : ℚ)
    (h : c1.resolution = c2.resolution) :
    create_dark_overlay (video_generator_init c1) d
        = create_dark_overlay (video_generator_init c2) d ∧
      (create_dark_overlay (video_generator_init c1) d).alpha = 178 := by
  constructor
  · simp [create_dark_overlay, video_generator_init, h]
  · have hfl : Int.floor ((255 : ℚ) * (7 / 10)) = 178 := by
      rw [Int.floor_eq_iff]
      norm_num
    simp [create_dark_overlay, video_generator_init, hfl]

/-- C10 witness at a concrete input. -/
theorem overlay_opacity_fixed_witness :
    configA.resolution = configC.resolution ∧
      (create_dark_overlay (video_generator_init configA) 5
          = create_dark_overlay (video_generator_init configC) 5 ∧
        (create_dark_overlay (video_generator_init configA) 5).alpha = 178) :=
  ⟨rfl, overlay_opacity_fixed configA configC 5 rfl⟩

end StoryFlux
